import Mathlib

/-!
Shallow embedding of the fff.nvim content-search core
(src/lua/fff/rust/content_searcher.rs and src/lua/fff/rust/grep_score.rs).

External collaborators (the regex engine, the directory walker and the
neo_frizbee fuzzy matcher) are abstracted as parameters: the regex engine
as a `compile` function returning `Except String Unit` (the error carries
the engine's message), the walker's output as an explicit list of per-file
scan outcomes, and the fuzzy matcher as a function from query, haystack and
configuration to a list of matches.  Rust machine integers are modelled as
`Nat` / `Int` (`u16` values as `Fin 65536`; `i32` saturating addition is
modelled explicitly by clamping to the `i32` range).
-/

namespace FFF

/-- Model of the GrepItem record from types.rs as used by
content_searcher.rs: one matching line with location metadata. -/
structure GrepItem where
  path : String
  relative_path : String
  line_number : Nat
  line_content : String
  column : Nat
deriving DecidableEq, Repr, Inhabited

/-- Modelled from the spec: the Score record from types.rs (not in src/):
final combined score, base fuzzy score, the strong-line-match bonus
(stored in filename_bonus), the file-category bonus (special_filename_bonus),
the position bonus (frecency_boost), two reserved always-zero fields, an
exact-match flag and a match-source tag.  Numeric fields are i32, modelled
as Int. -/
structure Score where
  total : Int
  base_score : Int
  filename_bonus : Int
  special_filename_bonus : Int
  frecency_boost : Int
  distance_penalty : Int
  current_file_penalty : Int
  exact_match : Bool
  match_type : String
deriving DecidableEq, Repr

/-- Modelled from the spec: Score::default(), the neutral score attached to
raw matches when fuzzy ranking is skipped — every numeric field zero, the
exact-match flag false, the tag empty. -/
def Score.default : Score :=
  { total := 0, base_score := 0, filename_bonus := 0,
    special_filename_bonus := 0, frecency_boost := 0,
    distance_penalty := 0, current_file_penalty := 0,
    exact_match := false, match_type := "" }

instance : Inhabited Score := ⟨Score.default⟩

/-- Model of GrepSearchResult from types.rs: the envelope returned by
fuzzy_grep_search. -/
structure GrepSearchResult where
  items : List GrepItem
  scores : List Score
  total_matched : Nat
  total_grepped : Nat
deriving DecidableEq, Repr

/-- Predicate used by escape_regex: the regex metacharacters the source
matches on (content_searcher.rs line 56). -/
def isMeta (c : Char) : Bool :=
  match c with
  | '\\' | '.' | '+' | '*' | '?' | '(' | ')' | '|'
  | '[' | ']' | '{' | '}' | '^' | '$' => true
  | _ => false

/-- Character-list core of escape_regex (content_searcher.rs lines 52-64):
each metacharacter is preceded by a backslash, all other characters are
kept unchanged.  The Rust code folds over the characters pushing onto a
string; here the same fold is written as structural recursion. -/
def escape_regex_chars : List Char → List Char
  | [] => []
  | c :: rest =>
    (if isMeta c then ['\\', c] else [c]) ++ escape_regex_chars rest

/-- escape_regex from content_searcher.rs lines 52-64. -/
def escape_regex (s : String) : String :=
  ⟨escape_regex_chars s.data⟩

/-- The indexed loop of fuzzy_query_to_regex for the characters after the
first (content_searcher.rs lines 37-46): every character except the final
one becomes the alternation "(<escaped char>|.)", the final character is
escaped literally (the loop's `i == chars.len() - 1` branch). -/
def fuzzy_interior : List Char → List Char
  | [] => []
  | [c] => escape_regex_chars [c]
  | c :: rest =>
    ('(' :: escape_regex_chars [c] ++ ['|', '.', ')']) ++ fuzzy_interior rest

/-- fuzzy_query_to_regex from content_searcher.rs lines 27-49.  `query.len()`
in Rust is the UTF-8 byte length, modelled by String.utf8ByteSize; the loop
iterates over characters, with the first and last kept exact (escaped) and
every interior character turned into an alternation. -/
def fuzzy_query_to_regex (query : String) : String :=
  if query.utf8ByteSize ≤ 2 then
    escape_regex query
  else
    match query.data with
    | [] => ""
    | c :: rest => ⟨escape_regex_chars [c] ++ fuzzy_interior rest⟩

/-- Repeated trailing-newline stripping: `line.trim_end_matches('\n')`
(content_searcher.rs line 124) removes every trailing newline character. -/
def trimEndNewlines (s : String) : String :=
  ⟨(s.data.reverse.dropWhile (fun c => c = '\n')).reverse⟩

/-- One file visited by the parallel walk, together with the outcome of the
line-oriented scan of that file (content_searcher.rs lines 101-146): either
a read/decoding failure, or the list of (1-based line number, raw line text)
hits found in file order.  Walk-entry errors and directories never reach the
scan, so they simply do not appear in the list of scans. -/
structure FileScan where
  path : String
  relative_path : String
  outcome : Except Unit (List (Nat × String))
deriving Repr

/-- The GrepItems a single file contributes to the shared result list
(content_searcher.rs lines 118-146): a failed scan contributes nothing (the
`search_result.is_ok()` guard discards even partially collected hits), a
successful scan contributes one item per hit with the trailing newlines
stripped and column fixed at 0 (line 136: "We'll calculate this later"). -/
def scanItems (fs : FileScan) : List GrepItem :=
  match fs.outcome with
  | .error _ => []
  | .ok hits =>
    hits.map (fun h =>
      { path := fs.path
        relative_path := fs.relative_path
        line_number := h.1
        line_content := trimEndNewlines h.2
        column := 0 })

/-- grep_search (content_searcher.rs lines 67-162).  The regex engine is the
`compile` parameter (case-insensitive compilation; on failure the engine's
message is surfaced via Error::GrepError).  The parallel walk is abstracted
by `scans`: the per-file batches appended to the shared lock-protected list,
in the (arbitrary) order the workers appended them — quantifying over all
`scans` covers every tree and every interleaving, including the over-cap
races the per-file check admits.  `max_threads` only sizes the worker pool
(`threads(max_threads.max(1))`) and does not affect which items are
collected.  The accumulated list is finally truncated with
`take(max_results)`. -/
def grep_search (compile : String → Except String Unit)
    (scans : List FileScan) (pattern : String)
    (max_results max_threads : Nat) : Except String (List GrepItem) :=
  match compile pattern with
  | .error e => .error e
  | .ok _ =>
    let _ := max max_threads 1
    .ok (((scans.map scanItems).flatten).take max_results)

/-- One match reported by the external fuzzy matcher
(neo_frizbee::match_list_parallel): candidate index, similarity score
(a u16, modelled as Fin 65536) and the exactness flag. -/
structure FMatch where
  index : Nat
  score : Fin 65536
  exact : Bool
deriving DecidableEq, Repr

/-- The scoring sub-configuration handed to the fuzzy matcher
(grep_score.rs lines 26-30); only the two bonus fields the code sets are
modelled, the rest of neo_frizbee::Scoring is opaque to this core. -/
structure FrizScoring where
  capitalization_bonus : Nat
  matching_case_bonus : Nat
deriving DecidableEq, Repr

/-- The configuration handed to the fuzzy matcher (grep_score.rs
lines 22-31). -/
structure FrizConfig where
  prefilter : Bool
  max_typos : Option Nat
  sort : Bool
  scoring : FrizScoring
deriving DecidableEq, Repr

/-- The external fuzzy matching engine, as a black box: query, haystack,
configuration and thread budget to a list of matches. -/
abbrev Matcher := String → List String → FrizConfig → Nat → List FMatch

/-- GrepScoringContext from grep_score.rs lines 5-10. -/
structure GrepScoringContext where
  query : String
  max_results : Nat
  max_typos : Nat
  max_threads : Nat
deriving DecidableEq, Repr

/-- Rust str::to_lowercase: every character lowercased (modelled
character-by-character with Char.toLower). -/
def str_to_lowercase (s : String) : String :=
  ⟨s.data.map Char.toLower⟩

/-- The options built for the fuzzy matcher (grep_score.rs lines 21-31):
capitalization bonuses are enabled exactly when the query contains an
uppercase letter. -/
def friz_options (context : GrepScoringContext) : FrizConfig :=
  let has_uppercase_letter := context.query.data.any Char.isUpper
  { prefilter := true
    max_typos := some context.max_typos
    sort := false
    scoring :=
      { capitalization_bonus := if has_uppercase_letter then 8 else 0
        matching_case_bonus := if has_uppercase_letter then 4 else 0 } }

/-- Auxiliary: does the first list occur character-for-character at the head
of the second? -/
def chars_start_with : List Char → List Char → Bool
  | [], _ => true
  | _ :: _, [] => false
  | p :: ps, c :: cs => p = c && chars_start_with ps cs

/-- Auxiliary: does the pattern occur as a contiguous run anywhere in the
list? -/
def chars_contain (pat : List Char) : List Char → Bool
  | [] => chars_start_with pat []
  | c :: rest => chars_start_with pat (c :: rest) || chars_contain pat rest

/-- Rust str::ends_with on string slices. -/
def str_ends_with (s pat : String) : Bool :=
  chars_start_with pat.data.reverse s.data.reverse

/-- Rust str::contains with a string pattern (substring search). -/
def str_contains (s pat : String) : Bool :=
  chars_contain pat.data s.data

/-- get_file_type_bonus from grep_score.rs lines 136-164. -/
def get_file_type_bonus (path : String) : Int :=
  if str_ends_with path ".rs" || str_ends_with path ".ts"
      || str_ends_with path ".tsx" || str_ends_with path ".js"
      || str_ends_with path ".jsx" || str_ends_with path ".py"
      || str_ends_with path ".go" || str_ends_with path ".java"
      || str_ends_with path ".c" || str_ends_with path ".cpp"
      || str_ends_with path ".h" then
    5
  else if str_contains path "test" || str_contains path "spec" then
    2
  else if str_ends_with path ".toml" || str_ends_with path ".json"
      || str_ends_with path ".yaml" || str_ends_with path ".yml" then
    1
  else
    0

/-- Lower bound of the i32 range. -/
def i32_min : Int := -(2 ^ 31)

/-- Upper bound of the i32 range. -/
def i32_max : Int := 2 ^ 31 - 1

/-- i32::saturating_add: the mathematical sum clamped to the i32 range. -/
def satAdd32 (a b : Int) : Int :=
  max i32_min (min i32_max (a + b))

/-- The line_match_map of grep_score.rs lines 62-65, as a lookup function:
the HashMap is filled by inserting each line match in list order, so for a
repeated index the last inserted score wins. -/
def line_match_lookup (line_matches : List FMatch) (idx : Nat) :
    Option (Fin 65536) :=
  ((line_matches.filter (fun m => m.index = idx)).map (fun m => m.score)).getLast?

/-- The body of the per-candidate closure of grep_score.rs lines 69-117:
fetch the item at the match's index, compute the three bonuses, combine
them with saturating addition and build the Score record.  The Rust
`items[index]` panics on an out-of-range index (the external matcher never
produces one); the model totalises it with getD. -/
def score_candidate (items : List GrepItem) (line_matches : List FMatch)
    (m : FMatch) : GrepItem × Score × Int :=
  let item := items.getD m.index default
  let base_score : Int := (m.score.val : Int)
  let line_match_bonus : Int :=
    ((line_match_lookup line_matches m.index).map (fun score =>
      let line_score : Int := (score.val : Int)
      if line_score > base_score then (line_score - base_score).tdiv 4
      else 0)).getD 0
  let position_bonus : Int :=
    if item.column < 10 then 5 else if item.column < 30 then 2 else 0
  let file_type_bonus : Int := get_file_type_bonus item.relative_path
  let total :=
    satAdd32 (satAdd32 (satAdd32 base_score line_match_bonus) position_bonus)
      file_type_bonus
  (item,
   { total := total
     base_score := base_score
     filename_bonus := line_match_bonus
     special_filename_bonus := file_type_bonus
     frecency_boost := position_bonus
     distance_penalty := 0
     current_file_penalty := 0
     exact_match := m.exact
     match_type := "grep" },
   total)

/-- Insertion step for the descending sort on the third (total) component. -/
def insert_desc (x : GrepItem × Score × Int) :
    List (GrepItem × Score × Int) → List (GrepItem × Score × Int)
  | [] => [x]
  | y :: ys => if x.2.2 ≥ y.2.2 then x :: y :: ys else y :: insert_desc x ys

/-- The sort of grep_score.rs line 122 (par_sort_unstable_by on the total,
descending).  The Rust sort is unstable; the order among equal totals is
unspecified there, and none of the verified properties depend on it, so any
descending-by-total sort is a faithful model. -/
def sort_by_total_desc (l : List (GrepItem × Score × Int)) :
    List (GrepItem × Score × Int) :=
  l.foldr insert_desc []

/-- match_and_score_grep_items from grep_score.rs lines 13-133, with the
external matcher passed in as `fm`. -/
def match_and_score_grep_items (items : List GrepItem)
    (context : GrepScoringContext) (fm : Matcher) :
    List GrepItem × List Score × Nat :=
  if items.isEmpty then ([], [], 0)
  else
    let options := friz_options context
    let haystack := items.map (fun item =>
      str_to_lowercase item.relative_path ++ " " ++ str_to_lowercase item.line_content)
    let combined_matches := fm context.query haystack options context.max_threads
    let total_matched := combined_matches.length
    let line_haystack := items.map (fun item => str_to_lowercase item.line_content)
    let line_matches :=
      fm context.query line_haystack options context.max_threads
    let results := combined_matches.map (score_candidate items line_matches)
    let top := (sort_by_total_desc results).take context.max_results
    let pairs := (top.map (fun r => (r.1, r.2.1))).unzip
    (pairs.1, pairs.2, total_matched)

/-- Rust's clamp on usize/u16 values: raise to the lower bound, then cap at
the upper bound. -/
def natClamp (x lo hi : Nat) : Nat := min (max x lo) hi

/-- The straight-line tail of fuzzy_grep_search after the grep stage
(content_searcher.rs lines 179-221): the empty early-return, the
short-fuzzy-query branch with default scores, and the full re-ranking
branch. -/
def assemble_results (grep_results : List GrepItem) (fuzzy_query : String)
    (max_results max_threads : Nat) (fm : Matcher) : GrepSearchResult :=
  if grep_results.isEmpty then
    { items := [], scores := [], total_matched := 0, total_grepped := 0 }
  else
    let total_grepped := grep_results.length
    if fuzzy_query.isEmpty || fuzzy_query.utf8ByteSize < 2 then
      let count := min grep_results.length max_results
      { items := grep_results.take count
        scores := List.replicate count Score.default
        total_matched := count
        total_grepped := total_grepped }
    else
      let max_typos := natClamp ((fuzzy_query.utf8ByteSize % 65536) / 4) 2 6
      let context : GrepScoringContext :=
        { query := fuzzy_query, max_results := max_results,
          max_typos := max_typos, max_threads := max_threads }
      let r := match_and_score_grep_items grep_results context fm
      { items := r.1
        scores := r.2.1
        total_matched := r.2.2
        total_grepped := total_grepped }

/-- fuzzy_grep_search from content_searcher.rs lines 165-221: translate the
pattern, run the grep stage with a doubled budget, then assemble the
envelope. -/
def fuzzy_grep_search (compile : String → Except String Unit)
    (scans : List FileScan) (grep_pattern fuzzy_query : String)
    (max_results max_threads : Nat) (fm : Matcher) :
    Except String GrepSearchResult :=
  let fuzzy_regex := fuzzy_query_to_regex grep_pattern
  match grep_search compile scans fuzzy_regex (max_results * 2) max_threads with
  | .error e => .error e
  | .ok grep_results =>
    .ok (assemble_results grep_results fuzzy_query max_results max_threads fm)

/-- Specification-side list of regex metacharacters, as enumerated by the
spec: backslash . + * ? ( ) | [ ] { } ^ $. -/
def metaChars : List Char :=
  ['\\', '.', '+', '*', '?', '(', ')', '|', '[', ']', '{', '}', '^', '$']

/-- Specification-side escaping of one character: a metacharacter gains a
leading backslash, every other character is unchanged. -/
def escChar_spec (c : Char) : List Char :=
  if c ∈ metaChars then ['\\', c] else [c]

/-- Specification-side alternation for one interior character: the pattern
fragment accepting either that exact (escaped) character or any single
character. -/
def alt_spec (c : Char) : List Char :=
  '(' :: escChar_spec c ++ ['|', '.', ')']

theorem isMeta_eq (c : Char) : isMeta c = decide (c ∈ metaChars) := by
  unfold isMeta
  split
  all_goals simp_all [metaChars]

theorem escape_regex_chars_eq (l : List Char) :
    escape_regex_chars l = l.flatMap escChar_spec := by
  induction l with
  | nil => rfl
  | cons c rest ih =>
    simp [escape_regex_chars, escChar_spec, isMeta_eq, ih]

theorem escape_regex_chars_singleton (c : Char) :
    escape_regex_chars [c] = escChar_spec c := by
  simp [escape_regex_chars_eq]

theorem charLen_le_utf8Len (l : List Char) : l.length ≤ String.utf8Len l := by
  induction l with
  | nil => simp
  | cons c cs ih =>
    have := Char.utf8Size_pos c
    simp only [List.length_cons, String.utf8Len_cons]
    omega

theorem fuzzy_interior_eq (mid : List Char) (clast : Char) :
    fuzzy_interior (mid ++ [clast]) =
      mid.flatMap alt_spec ++ escape_regex_chars [clast] := by
  induction mid with
  | nil => simp [fuzzy_interior]
  | cons c mid ih =>
    rcases mid with _ | ⟨d, mid'⟩
    · simp [fuzzy_interior, alt_spec, escape_regex_chars_singleton]
    · simp only [List.cons_append] at ih ⊢
      rw [show fuzzy_interior (c :: d :: (mid' ++ [clast])) =
            ('(' :: escape_regex_chars [c] ++ ['|', '.', ')']) ++
              fuzzy_interior (d :: (mid' ++ [clast])) from rfl,
          ih]
      simp [alt_spec, escape_regex_chars_singleton]

/-- C3: for every query of at most two characters, the translated pattern is
exactly the query with the metacharacters backslash . + * ? ( ) | [ ] { } ^ $
escaped and all other characters unchanged — in particular it contains no
typo-tolerance alternations. -/
theorem short_query_pattern_is_escaped_literal (q : String)
    (h : q.data.length ≤ 2) :
    fuzzy_query_to_regex q = ⟨q.data.flatMap escChar_spec⟩ := by
  obtain ⟨l⟩ := q
  unfold fuzzy_query_to_regex
  split
  · simp [escape_regex, escape_regex_chars_eq]
  · simp only at h ⊢
    rcases l with _ | ⟨c, _ | ⟨d, _ | ⟨e, rest⟩⟩⟩
    · rfl
    · simp [fuzzy_interior, escape_regex_chars_singleton]
    · simp [fuzzy_interior, escape_regex_chars_singleton]
    · simp at h

theorem short_query_pattern_is_escaped_literal_witness :
    ("a.").data.length ≤ 2 ∧
      fuzzy_query_to_regex "a." = ⟨("a.").data.flatMap escChar_spec⟩ :=
  ⟨by decide, short_query_pattern_is_escaped_literal "a." (by decide)⟩

/-- C4: for every query of more than two characters (first character c0,
interior characters mid, last character clast), the translated pattern is
the escaped first character, then for each interior character the
alternation accepting either that exact escaped character or any single
character, then the escaped last character. -/
theorem long_query_pattern_shape (q : String) (c0 clast : Char)
    (mid : List Char) (hdec : q.data = c0 :: (mid ++ [clast]))
    (hmid : mid ≠ []) :
    fuzzy_query_to_regex q =
      ⟨escChar_spec c0 ++ mid.flatMap alt_spec ++ escChar_spec clast⟩ := by
  obtain ⟨l⟩ := q
  simp only at hdec
  subst hdec
  unfold fuzzy_query_to_regex
  split
  · rename_i hshort
    exfalso
    rcases mid with _ | ⟨d, mid'⟩
    · exact hmid rfl
    · have hlen := charLen_le_utf8Len (c0 :: (d :: mid' ++ [clast]))
      simp only [String.utf8ByteSize_mk] at hshort
      simp only [List.length_cons, List.length_append, List.length_cons,
        List.length_nil] at hlen
      omega
  · simp only
    rw [fuzzy_interior_eq, escape_regex_chars_singleton,
      escape_regex_chars_singleton]
    simp

theorem long_query_pattern_shape_witness :
    ("funk").data = 'f' :: (['u', 'n'] ++ ['k']) ∧ (['u', 'n'] : List Char) ≠ [] ∧
      fuzzy_query_to_regex "funk" =
        ⟨escChar_spec 'f' ++ (['u', 'n'] : List Char).flatMap alt_spec ++
          escChar_spec 'k'⟩ :=
  ⟨by decide, by decide,
    long_query_pattern_shape "funk" 'f' 'k' ['u', 'n'] (by decide) (by decide)⟩

/-- C2: for every pattern, every tree (any list of per-file scan batches, in
any interleaving the parallel walk may produce) and every thread budget of
at least 1, a successful grep_search returns at most max_results matches:
the accumulated, possibly over-cap shared list is truncated before
returning. -/
theorem grep_search_respects_cap (compile : String → Except String Unit)
    (scans : List FileScan) (pattern : String) (max_results max_threads : Nat)
    (_hthreads : 1 ≤ max_threads) (out : List GrepItem)
    (hok : grep_search compile scans pattern max_results max_threads =
      .ok out) :
    out.length ≤ max_results := by
  unfold grep_search at hok
  rcases hc : compile pattern with e | u <;> rw [hc] at hok
  · exact absurd hok (by simp)
  · simp only [Except.ok.injEq] at hok
    rw [← hok]
    exact List.length_take_le max_results _

theorem grep_search_respects_cap_witness :
    1 ≤ 1 ∧
      grep_search (fun _ => .ok ()) [⟨"d/a.rs", "a.rs", .ok [(1, "xy\n")]⟩]
          "xy" 1 1 =
        .ok [⟨"d/a.rs", "a.rs", 1, "xy", 0⟩] ∧
      ([(⟨"d/a.rs", "a.rs", 1, "xy", 0⟩ : GrepItem)]).length ≤ 1 :=
  ⟨Nat.le_refl 1, rfl,
    grep_search_respects_cap (fun _ => .ok ())
      [⟨"d/a.rs", "a.rs", .ok [(1, "xy\n")]⟩] "xy" 1 1 (Nat.le_refl 1)
      [⟨"d/a.rs", "a.rs", 1, "xy", 0⟩] rfl⟩

/-- C6: grep_search fails exactly when the pattern fails to compile, and
then surfaces the engine's message; a per-file scan failure contributes
nothing — replacing a failing file by a successfully scanned file with no
hits leaves the result unchanged, and in particular never turns the call
into an error. -/
theorem grep_search_error_contract (compile : String → Except String Unit)
    (scans : List FileScan) (pattern : String) (max_results max_threads : Nat) :
    (∀ e, compile pattern = .error e →
      grep_search compile scans pattern max_results max_threads = .error e) ∧
    ((∃ e, grep_search compile scans pattern max_results max_threads =
        .error e) ↔ ∃ e, compile pattern = .error e) ∧
    (∀ before after p rp err,
      grep_search compile (before ++ ⟨p, rp, .error err⟩ :: after) pattern
          max_results max_threads =
        grep_search compile (before ++ ⟨p, rp, .ok []⟩ :: after) pattern
          max_results max_threads) := by
  refine ⟨?_, ?_, ?_⟩
  · intro e he
    simp [grep_search, he]
  · rcases hc : compile pattern with e | u <;> simp [grep_search, hc]
  · intro before after p rp err
    rcases hc : compile pattern with e | u <;>
      simp [grep_search, hc, scanItems]

theorem grep_search_error_contract_witness :
    grep_search (fun _ => .error "regex parse error") [] "(" 5 1 =
      .error "regex parse error" :=
  (grep_search_error_contract (fun _ => .error "regex parse error") [] "("
      5 1).1 "regex parse error" rfl

theorem length_insert_desc (x : GrepItem × Score × Int)
    (l : List (GrepItem × Score × Int)) :
    (insert_desc x l).length = l.length + 1 := by
  induction l with
  | nil => rfl
  | cons y ys ih =>
    unfold insert_desc
    split <;> simp [ih]

theorem length_sort_by_total_desc (l : List (GrepItem × Score × Int)) :
    (sort_by_total_desc l).length = l.length := by
  induction l with
  | nil => rfl
  | cons x xs ih =>
    unfold sort_by_total_desc at ih ⊢
    simp [List.foldr_cons, length_insert_desc, ih]

theorem mem_insert_desc (y x : GrepItem × Score × Int)
    (l : List (GrepItem × Score × Int)) :
    y ∈ insert_desc x l ↔ y = x ∨ y ∈ l := by
  induction l with
  | nil => simp [insert_desc]
  | cons z zs ih =>
    unfold insert_desc
    split
    · simp
    · simp only [List.mem_cons, ih]
      tauto

theorem mem_sort_by_total_desc (y : GrepItem × Score × Int)
    (l : List (GrepItem × Score × Int)) :
    y ∈ sort_by_total_desc l ↔ y ∈ l := by
  induction l with
  | nil => simp [sort_by_total_desc]
  | cons x xs ih =>
    unfold sort_by_total_desc at ih ⊢
    simp only [List.foldr_cons, mem_insert_desc, ih, List.mem_cons]

theorem match_and_score_lengths (items : List GrepItem)
    (context : GrepScoringContext) (fm : Matcher) :
    ((match_and_score_grep_items items context fm).1).length =
        ((match_and_score_grep_items items context fm).2.1).length ∧
      ((match_and_score_grep_items items context fm).1).length =
        min context.max_results
          (match_and_score_grep_items items context fm).2.2 := by
  unfold match_and_score_grep_items
  split
  · simp
  · simp [List.unzip_eq_map, List.length_take, length_sort_by_total_desc]

/-- Every score in the output of match_and_score_grep_items is the score
component of score_candidate at some match the combined-view run of the
fuzzy matcher produced. -/
theorem mem_scores_exists (items : List GrepItem)
    (context : GrepScoringContext) (fm : Matcher) (s : Score)
    (hs : s ∈ (match_and_score_grep_items items context fm).2.1) :
    ∃ m ∈ fm context.query
        (items.map (fun item =>
          str_to_lowercase item.relative_path ++ " " ++ str_to_lowercase item.line_content))
        (friz_options context) context.max_threads,
      s = (score_candidate items
            (fm context.query (items.map (fun item => str_to_lowercase item.line_content))
              (friz_options context) context.max_threads) m).2.1 := by
  unfold match_and_score_grep_items at hs
  split at hs
  · simp at hs
  · simp only [List.unzip_eq_map, List.map_map, List.mem_map] at hs
    obtain ⟨r, hr, hsr⟩ := hs
    have hr' : r ∈ sort_by_total_desc _ := List.take_subset _ _ hr
    rw [mem_sort_by_total_desc] at hr'
    simp only [List.mem_map] at hr'
    obtain ⟨m, hm, hrm⟩ := hr'
    refine ⟨m, hm, ?_⟩
    rw [← hsr, ← hrm]
    rfl

/-- C1: every successful fuzzy_grep_search call returns an envelope with
index-aligned items and scores, and at most min(max_results, total_matched)
of them, in every branch (empty raw matches, short fuzzy query, full
re-ranking). -/
theorem fuzzy_grep_search_envelope_invariant
    (compile : String → Except String Unit) (scans : List FileScan)
    (grep_pattern fuzzy_query : String) (max_results max_threads : Nat)
    (fm : Matcher) (r : GrepSearchResult)
    (hok : fuzzy_grep_search compile scans grep_pattern fuzzy_query
      max_results max_threads fm = .ok r) :
    r.items.length = r.scores.length ∧
      r.items.length ≤ min max_results r.total_matched := by
  simp only [fuzzy_grep_search] at hok
  split at hok
  · exact absurd hok (by simp)
  · simp only [Except.ok.injEq] at hok
    rw [← hok]
    clear hok
    rename_i grep_results _
    unfold assemble_results
    split
    · simp
    · split
      · simp only [List.length_take, List.length_replicate]
        omega
      · obtain ⟨h1, h2⟩ := match_and_score_lengths grep_results
          { query := fuzzy_query, max_results := max_results,
            max_typos := natClamp ((fuzzy_query.utf8ByteSize % 65536) / 4) 2 6,
            max_threads := max_threads } fm
        simp only at h1 h2 ⊢
        omega

theorem fuzzy_grep_search_envelope_invariant_witness :
    fuzzy_grep_search (fun _ => .ok ())
        [⟨"d/a.rs", "a.rs", .ok [(1, "xy")]⟩] "xy" "x" 5 1
        (fun _ _ _ _ => []) =
      .ok ⟨[⟨"d/a.rs", "a.rs", 1, "xy", 0⟩], [Score.default], 1, 1⟩ ∧
      ([(⟨"d/a.rs", "a.rs", 1, "xy", 0⟩ : GrepItem)]).length =
        ([Score.default]).length ∧
      ([(⟨"d/a.rs", "a.rs", 1, "xy", 0⟩ : GrepItem)]).length ≤ min 5 1 :=
  ⟨rfl,
    fuzzy_grep_search_envelope_invariant (fun _ => .ok ())
      [⟨"d/a.rs", "a.rs", .ok [(1, "xy")]⟩] "xy" "x" 5 1 (fun _ _ _ _ => [])
      ⟨[⟨"d/a.rs", "a.rs", 1, "xy", 0⟩], [Score.default], 1, 1⟩ rfl⟩

/-- C5: when the raw grep results are non-empty and the fuzzy query is
empty or shorter than two bytes, the envelope holds the first
min(max_results, total raw matches) raw matches in original order, each
paired with the default score; total_matched is the number of items
returned and total_grepped the total number of raw matches. -/
theorem short_fuzzy_query_returns_raw (grep_results : List GrepItem)
    (fuzzy_query : String) (max_results max_threads : Nat) (fm : Matcher)
    (hne : grep_results ≠ []) (hshort : fuzzy_query.utf8ByteSize < 2) :
    (assemble_results grep_results fuzzy_query max_results max_threads
        fm).items = grep_results.take (min max_results grep_results.length) ∧
      (assemble_results grep_results fuzzy_query max_results max_threads
        fm).scores =
        List.replicate (min max_results grep_results.length) Score.default ∧
      (assemble_results grep_results fuzzy_query max_results max_threads
        fm).total_matched =
        (assemble_results grep_results fuzzy_query max_results max_threads
          fm).items.length ∧
      (assemble_results grep_results fuzzy_query max_results max_threads
        fm).total_grepped = grep_results.length := by
  unfold assemble_results
  rw [if_neg (by simpa using hne),
    if_pos (by simp [hshort])]
  have hc : min grep_results.length max_results ≤ grep_results.length :=
    Nat.min_le_left _ _
  refine ⟨by rw [Nat.min_comm], by rw [Nat.min_comm], ?_, rfl⟩
  simp only [List.length_take]
  omega

theorem short_fuzzy_query_returns_raw_witness :
    ([(⟨"d/a.rs", "a.rs", 1, "xy", 0⟩ : GrepItem)]) ≠ [] ∧
      ("" : String).utf8ByteSize < 2 ∧
      (assemble_results [⟨"d/a.rs", "a.rs", 1, "xy", 0⟩] "" 3 1
          (fun _ _ _ _ => [])).items =
        ([(⟨"d/a.rs", "a.rs", 1, "xy", 0⟩ : GrepItem)]).take (min 3 1) :=
  ⟨by decide, by decide,
    (short_fuzzy_query_returns_raw [⟨"d/a.rs", "a.rs", 1, "xy", 0⟩] "" 3 1
      (fun _ _ _ _ => []) (by decide) (by decide)).1⟩

/-- Specification-side line-match bonus: one quarter (integer division,
toward zero) of the amount by which the line-only score exceeds the
combined score, when the candidate survived the line-only match and its
line-only score is strictly greater; otherwise 0. -/
def line_bonus_spec (line_score : Option (Fin 65536)) (combined : Int) : Int :=
  match line_score with
  | some ls =>
    if (ls.val : Int) > combined then ((ls.val : Int) - combined).tdiv 4
    else 0
  | none => 0

/-- C7: every score the re-ranker returns belongs to a candidate that
survived the combined-view match, and its line-match bonus is one quarter
of (line-only score minus combined score) when the line-only score is
strictly greater, and 0 otherwise, including when the candidate did not
survive the line-only match. -/
theorem line_match_bonus_formula (items : List GrepItem)
    (context : GrepScoringContext) (fm : Matcher) (s : Score)
    (hs : s ∈ (match_and_score_grep_items items context fm).2.1) :
    ∃ m ∈ fm context.query
        (items.map (fun item =>
          str_to_lowercase item.relative_path ++ " " ++ str_to_lowercase item.line_content))
        (friz_options context) context.max_threads,
      s.base_score = (m.score.val : Int) ∧
      s.filename_bonus =
        line_bonus_spec
          (line_match_lookup
            (fm context.query
              (items.map (fun item => str_to_lowercase item.line_content))
              (friz_options context) context.max_threads) m.index)
          s.base_score := by
  obtain ⟨m, hm, hsm⟩ := mem_scores_exists items context fm s hs
  refine ⟨m, hm, ?_, ?_⟩
  · rw [hsm]
    rfl
  · rw [hsm]
    rcases hl : line_match_lookup
        (fm context.query (items.map (fun item => str_to_lowercase item.line_content))
          (friz_options context) context.max_threads) m.index with _ | ls <;>
      simp [score_candidate, line_bonus_spec, hl]

theorem line_match_bonus_formula_witness :
    ∃ m ∈ (fun (_ : String) (hay : List String) (_ : FrizConfig) (_ : Nat) =>
        if hay = ["hello"] then [(⟨0, 80, false⟩ : FMatch)]
        else [(⟨0, 40, false⟩ : FMatch)]) "hel"
        (([⟨"a.rs", "a.rs", 1, "hello", 0⟩] : List GrepItem).map (fun item =>
          str_to_lowercase item.relative_path ++ " " ++ str_to_lowercase item.line_content))
        (friz_options ⟨"hel", 10, 2, 1⟩) (3 : Nat),
      ({ total := 60, base_score := 40, filename_bonus := 10,
         special_filename_bonus := 5, frecency_boost := 5,
         distance_penalty := 0, current_file_penalty := 0,
         exact_match := false, match_type := "grep" } : Score).base_score =
          (m.score.val : Int) ∧
      ({ total := 60, base_score := 40, filename_bonus := 10,
         special_filename_bonus := 5, frecency_boost := 5,
         distance_penalty := 0, current_file_penalty := 0,
         exact_match := false, match_type := "grep" } : Score).filename_bonus =
        line_bonus_spec
          (line_match_lookup
            ((fun (_ : String) (hay : List String) (_ : FrizConfig) (_ : Nat) =>
              if hay = ["hello"] then [(⟨0, 80, false⟩ : FMatch)]
              else [(⟨0, 40, false⟩ : FMatch)]) "hel"
              (([⟨"a.rs", "a.rs", 1, "hello", 0⟩] : List GrepItem).map
                (fun item => str_to_lowercase item.line_content))
              (friz_options ⟨"hel", 10, 2, 1⟩) (3 : Nat)) m.index)
          ({ total := 60, base_score := 40, filename_bonus := 10,
             special_filename_bonus := 5, frecency_boost := 5,
             distance_penalty := 0, current_file_penalty := 0,
             exact_match := false, match_type := "grep" } : Score).base_score :=
  line_match_bonus_formula [⟨"a.rs", "a.rs", 1, "hello", 0⟩] ⟨"hel", 10, 2, 1⟩
    (fun _ hay _ _ =>
      if hay = ["hello"] then [(⟨0, 80, false⟩ : FMatch)]
      else [(⟨0, 40, false⟩ : FMatch)])
    { total := 60, base_score := 40, filename_bonus := 10,
      special_filename_bonus := 5, frecency_boost := 5,
      distance_penalty := 0, current_file_penalty := 0,
      exact_match := false, match_type := "grep" }
    (by decide)

/-- Specification-side allow-list of source-code extensions. -/
def source_code_exts : List String :=
  [".rs", ".ts", ".tsx", ".js", ".jsx", ".py", ".go", ".java", ".c",
   ".cpp", ".h"]

/-- Specification-side list of structured-config extensions. -/
def config_exts : List String := [".toml", ".json", ".yaml", ".yml"]

/-- Specification-side file-type bonus: 5 for a source-code extension, else
2 for a path containing the case-sensitive substring "test" or "spec", else
1 for a config extension, else 0 — first matching rule wins. -/
def file_type_bonus_spec (path : String) : Int :=
  if source_code_exts.any (fun e => str_ends_with path e) then 5
  else if str_contains path "test" || str_contains path "spec" then 2
  else if config_exts.any (fun e => str_ends_with path e) then 1
  else 0

/-- C8: get_file_type_bonus follows exactly the mutually-exclusive
first-match-wins rules the spec states: 5 for the eleven source-code
extensions, else 2 for a "test"/"spec" substring, else 1 for the four
config extensions, else 0. -/
theorem file_type_bonus_rules (path : String) :
    get_file_type_bonus path = file_type_bonus_spec path := by
  unfold get_file_type_bonus file_type_bonus_spec source_code_exts config_exts
  simp only [List.any_cons, List.any_nil, Bool.or_false, Bool.or_assoc]

/-- Every item a file scan contributes has column 0. -/
theorem scanItems_column_zero (fs : FileScan) (item : GrepItem)
    (h : item ∈ scanItems fs) : item.column = 0 := by
  unfold scanItems at h
  split at h
  · simp at h
  · simp only [List.mem_map] at h
    obtain ⟨hit, _, hh⟩ := h
    rw [← hh]

/-- C9: every match line a successful grep_search produces has column 0,
and consequently the re-ranker computes the maximal position bonus 5 for
every score it produces from those lines. -/
theorem grep_column_zero_and_position_bonus
    (compile : String → Except String Unit) (scans : List FileScan)
    (pattern : String) (max_results max_threads : Nat)
    (out : List GrepItem) (context : GrepScoringContext) (fm : Matcher)
    (hok : grep_search compile scans pattern max_results max_threads =
      .ok out) :
    (∀ item ∈ out, item.column = 0) ∧
      (∀ s ∈ (match_and_score_grep_items out context fm).2.1,
        s.frecency_boost = 5) := by
  have hcols : ∀ item ∈ out, item.column = 0 := by
    unfold grep_search at hok
    split at hok
    · exact absurd hok (by simp)
    · simp only [Except.ok.injEq] at hok
      intro item hitem
      rw [← hok] at hitem
      have hmem := List.take_subset _ _ hitem
      rw [List.mem_flatten] at hmem
      obtain ⟨batch, hbatch, hin⟩ := hmem
      rw [List.mem_map] at hbatch
      obtain ⟨fs, _, hfs⟩ := hbatch
      exact scanItems_column_zero fs item (hfs ▸ hin)
  refine ⟨hcols, ?_⟩
  intro s hs
  obtain ⟨m, _, hsm⟩ := mem_scores_exists out context fm s hs
  have hcol : (out[m.index]?.getD default).column = 0 := by
    rcases Nat.lt_or_ge m.index out.length with hlt | hge
    · rw [List.getElem?_eq_getElem hlt, Option.getD_some]
      exact hcols _ (List.getElem_mem hlt)
    · rw [List.getElem?_eq_none hge]
      rfl
  rw [hsm]
  simp [score_candidate, hcol]

theorem grep_column_zero_and_position_bonus_witness :
    ((⟨"d/a.rs", "a.rs", 1, "hello", 0⟩ : GrepItem)).column = 0 ∧
      ({ total := 50, base_score := 40, filename_bonus := 0,
         special_filename_bonus := 5, frecency_boost := 5,
         distance_penalty := 0, current_file_penalty := 0,
         exact_match := false, match_type := "grep" } : Score).frecency_boost
        = 5 :=
  ⟨(grep_column_zero_and_position_bonus (fun _ => .ok ())
      [⟨"d/a.rs", "a.rs", .ok [(1, "hello")]⟩] "hel" 4 1
      [⟨"d/a.rs", "a.rs", 1, "hello", 0⟩] ⟨"hel", 10, 2, 1⟩
      (fun _ _ _ _ => [⟨0, 40, false⟩]) rfl).1
      ⟨"d/a.rs", "a.rs", 1, "hello", 0⟩ (by decide),
    (grep_column_zero_and_position_bonus (fun _ => .ok ())
      [⟨"d/a.rs", "a.rs", .ok [(1, "hello")]⟩] "hel" 4 1
      [⟨"d/a.rs", "a.rs", 1, "hello", 0⟩] ⟨"hel", 10, 2, 1⟩
      (fun _ _ _ _ => [⟨0, 40, false⟩]) rfl).2
      { total := 50, base_score := 40, filename_bonus := 0,
        special_filename_bonus := 5, frecency_boost := 5,
        distance_penalty := 0, current_file_penalty := 0,
        exact_match := false, match_type := "grep" } (by decide)⟩

theorem satAdd32_chain_ge_left (b x y z : Int) (hb : b ≤ i32_max)
    (hx : 0 ≤ x) (hy : 0 ≤ y) (hz : 0 ≤ z) :
    b ≤ satAdd32 (satAdd32 (satAdd32 b x) y) z := by
  unfold satAdd32 i32_max i32_min at *
  omega

theorem line_bonus_value_nonneg (o : Option (Fin 65536)) (b : Int) :
    0 ≤ (o.map (fun score =>
      let line_score : Int := (score.val : Int)
      if line_score > b then (line_score - b).tdiv 4 else 0)).getD 0 := by
  cases o with
  | none => simp
  | some ls =>
    simp only [Option.map_some', Option.getD_some]
    split
    · exact Int.tdiv_nonneg (by omega) (by omega)
    · exact le_refl 0

theorem get_file_type_bonus_nonneg (path : String) :
    0 ≤ get_file_type_bonus path := by
  unfold get_file_type_bonus
  repeat' split
  all_goals decide

/-- The score built for any candidate never falls below its base fuzzy
score. -/
theorem score_candidate_total_ge_base (items : List GrepItem)
    (line_matches : List FMatch) (m : FMatch) :
    (score_candidate items line_matches m).2.1.base_score ≤
      (score_candidate items line_matches m).2.1.total := by
  simp only [score_candidate]
  apply satAdd32_chain_ge_left
  · have := m.score.isLt
    unfold i32_max
    omega
  · exact line_bonus_value_nonneg _ _
  · split
    · decide
    · split <;> decide
  · exact get_file_type_bonus_nonneg _

/-- C10: every score returned by match_and_score_grep_items has
total ≥ base_score — the three bonuses are non-negative and combined with
saturating addition, so re-ranking never lowers a candidate below its base
fuzzy score. -/
theorem total_never_below_base (items : List GrepItem)
    (context : GrepScoringContext) (fm : Matcher) (s : Score)
    (hs : s ∈ (match_and_score_grep_items items context fm).2.1) :
    s.base_score ≤ s.total := by
  obtain ⟨m, _, hsm⟩ := mem_scores_exists items context fm s hs
  rw [hsm]
  exact score_candidate_total_ge_base _ _ _

theorem total_never_below_base_witness :
    ({ total := 50, base_score := 40, filename_bonus := 0,
       special_filename_bonus := 5, frecency_boost := 5,
       distance_penalty := 0, current_file_penalty := 0,
       exact_match := false, match_type := "grep" } : Score).base_score ≤
      ({ total := 50, base_score := 40, filename_bonus := 0,
         special_filename_bonus := 5, frecency_boost := 5,
         distance_penalty := 0, current_file_penalty := 0,
         exact_match := false, match_type := "grep" } : Score).total :=
  total_never_below_base [⟨"d/a.rs", "a.rs", 1, "hello", 0⟩]
    ⟨"hel", 10, 2, 1⟩ (fun _ _ _ _ => [⟨0, 40, false⟩])
    { total := 50, base_score := 40, filename_bonus := 0,
      special_filename_bonus := 5, frecency_boost := 5,
      distance_penalty := 0, current_file_penalty := 0,
      exact_match := false, match_type := "grep" } (by decide)

end FFF
